import Mathlib

/-
Verification of the task-progress controller (StudioModule._performTaskWithProgress,
src/unnamed/part_003) and the playback engine (src/unnamed/part_001) of the
whisperos repository.

The controller is single-threaded JavaScript driven by timers.  We model it with
logical time in milliseconds: every awaited sleep advances time by exactly its
nominal amount, and the shared flags isPaused / stopFlag are modelled as Boolean
functions of logical time (any sequence of user clicks on the Pause / Stop
buttons induces such functions; the buttons are only rendered while isLoading,
see renderProgressIndicator).  Loops are given explicit fuel and return none
when the fuel runs out, so every definition is executable.
-/

/- A progress stage, part_003 line 23: {message: string, duration: number}. -/
structure Stage where
  message : String
  duration : Nat
deriving DecidableEq

/- The local state of the progress simulator closure (part_003 lines 36-56):
   logical time now, the elapsed counter, and the two reactive fields it
   writes, statusMessage and progress. -/
structure SimState where
  now : Nat
  elapsed : Nat
  status : String
  progress : ℚ
deriving DecidableEq

/- One observable write performed by the simulator.  A tick records the write
   of elapsed and (for non-long tasks) progress at line 50-52, together with
   the value statusMessage holds at that moment. -/
inductive SimWrite where
  | setStatus (t : Nat) (msg : String)
  | tick (t : Nat) (elapsed : Nat) (progress : Option ℚ) (status : String)
deriving DecidableEq

/- Lines 41 and 47: while (this.isPaused and not this.stopFlag) sleep 200ms.
   Returns the time at which the wait exits, or none if the fuel runs out. -/
def pauseWait (pausedF stopF : Nat → Bool) : Nat → Nat → Option Nat
  | 0, t => if pausedF t && !(stopF t) then none else some t
  | fuel + 1, t => if pausedF t && !(stopF t) then pauseWait pausedF stopF fuel (t + 200) else some t

/- Lines 45-54: the inner while loop of one stage.
   while (Date.now() - start < stage.duration) {
     if (this.stopFlag) break;
     while (this.isPaused and not this.stopFlag) sleep 200;
     sleep 50; elapsed += 50;
     if (!isLongTask) this.progress = Math.min(100, (elapsed / totalDuration) * 100);
   } -/
def tickLoop (pausedF stopF : Nat → Bool) (isLongTask : Bool) (totalDuration duration start pfuel : Nat) :
    Nat → SimState → List SimWrite → Option (SimState × List SimWrite)
  | 0, st, tr => if st.now - start < duration then none else some (st, tr)
  | fuel + 1, st, tr =>
    if st.now - start < duration then
      if stopF st.now then some (st, tr)
      else
        match pauseWait pausedF stopF pfuel st.now with
        | none => none
        | some t1 =>
          let e2 := st.elapsed + 50
          let pr := if isLongTask then st.progress
                    else min 100 (((e2 : Nat) : ℚ) / ((totalDuration : Nat) : ℚ) * 100)
          tickLoop pausedF stopF isLongTask totalDuration duration start pfuel fuel
            ⟨t1 + 50, e2, st.status, pr⟩
            (tr ++ [SimWrite.tick (t1 + 50) e2 (if isLongTask then none else some pr) st.status])
    else some (st, tr)

/- Lines 39-55: the stage loop of the progress simulator.
   for (const stage of stages) {
     if (this.stopFlag) break;
     while (this.isPaused and not this.stopFlag) sleep 200;
     this.statusMessage = stage.message;
     const start = Date.now();
     ... inner loop ...
   } -/
def runStages (pausedF stopF : Nat → Bool) (isLongTask : Bool) (totalDuration pfuel tfuel : Nat) :
    List Stage → SimState → List SimWrite → Option (SimState × List SimWrite)
  | [], st, tr => some (st, tr)
  | s :: rest, st, tr =>
    if stopF st.now then some (st, tr)
    else
      match pauseWait pausedF stopF pfuel st.now with
      | none => none
      | some t1 =>
        match tickLoop pausedF stopF isLongTask totalDuration s.duration t1 pfuel tfuel
                ⟨t1, st.elapsed, s.message, st.progress⟩
                (tr ++ [SimWrite.setStatus t1 s.message]) with
        | none => none
        | some (st2, tr2) =>
          runStages pausedF stopF isLongTask totalDuration pfuel tfuel rest st2 tr2

/- The reactive fields of StudioModule shared between the run and the UI
   (part_003 lines 15-19). -/
structure ModState where
  isLoading : Bool
  isPaused : Bool
  stopFlag : Bool
  progress : ℚ
  statusMessage : String
deriving DecidableEq

/- External writes that can hit the shared fields during the 1500ms settle
   window (line 86), each one the embedding of source lines executed by a
   concurrent actor:
   - startRun: a new invocation of _performTaskWithProgress begins, lines 27-31.
   - finishRun: that invocation reaches its finally block, lines 73-83
     (success is true for the branch that also writes progress = 100).
   - clickStop / clickPause: the Stop and Pause buttons of
     renderProgressIndicator, lines 112-113, which exist only while
     isLoading is true (line 103). -/
inductive WEvent where
  | startRun
  | finishRun (terminalMsg : String) (success : Bool)
  | clickStop
  | clickPause
deriving DecidableEq

def applyWEvent (st : ModState) (e : WEvent) : ModState :=
  match e with
  | .startRun => ⟨true, false, false, 0, ""⟩
  | .finishRun msg success =>
      { st with statusMessage := msg,
                progress := if success then 100 else st.progress,
                isLoading := false, isPaused := false }
  | .clickStop => if st.isLoading then { st with stopFlag := true } else st
  | .clickPause => if st.isLoading then { st with isPaused := !st.isPaused } else st

/- Lines 86-93: after the 1500ms settle sleep, the idle reset.
   if (!this.isLoading) { statusMessage = ""; progress = 0; stopFlag = false; } -/
def settleWindow (st : ModState) (evs : List WEvent) : ModState :=
  let st1 := evs.foldl applyWEvent st
  if st1.isLoading then st1
  else { st1 with statusMessage := "", progress := 0, stopFlag := false }

/- Line 35: const totalDuration = stages.reduce((acc, s) => acc + s.duration, 0). -/
def totalDurationOf (stages : List Stage) : Nat :=
  stages.foldl (fun acc s => acc + s.duration) 0

/- One run of _performTaskWithProgress.  The caller-supplied task is opaque:
   it settles at absolute logical time taskTime with taskOutcome.  pausedF and
   stopF give the values of isPaused and stopFlag over logical time, and
   windowEvents lists the external writes landing during the settle window. -/
structure RunConfig (T : Type) where
  stages : List Stage
  isLongTask : Bool
  taskTime : Nat
  taskOutcome : Except String T
  pausedF : Nat → Bool
  stopF : Nat → Bool
  windowEvents : List WEvent
  pfuel : Nat
  tfuel : Nat

/- The observable outcome of a run: the time the finally block runs
   (finalizeTime), the terminal status and progress written there (lines
   73-80), the time at which the returned promise settles, the shared state
   right after the settle-window processing (lines 89-93), and the settled
   result: Except.error e when line 96 rethrows, otherwise the value returned
   at line 99. -/
structure RunOutcome (T : Type) where
  finalizeTime : Nat
  terminalStatus : String
  terminalProgress : ℚ
  settleTime : Nat
  finalState : ModState
  result : Except String (Option T)
  simTrace : List SimWrite
  simFinal : SimState

/- Lines 22-100 of part_003 as a whole.  Control flow:
   - non-long task: taskResult = await task(), so the body reaches finally at
     taskTime (line 64);
   - long task: Promise.race of task() and the simulator (line 62); whichever
     settles first delivers; the simulator delivers undefined;
   - finally (69-84): if stopFlag is not set at that moment the simulator is
     awaited (line 71); then the terminal message is chosen by lines 73-80 and
     isLoading / isPaused are cleared;
   - line 86: 1500ms settle sleep, during which windowEvents land;
   - lines 89-93: idle reset if isLoading is false;
   - lines 95-99: rethrow or return, reading stopFlag after the reset. -/
def performTaskWithProgress {T : Type} (cfg : RunConfig T) : Option (RunOutcome T) :=
  match runStages cfg.pausedF cfg.stopF cfg.isLongTask (totalDurationOf cfg.stages)
          cfg.pfuel cfg.tfuel cfg.stages ⟨0, 0, "", 0⟩ [] with
  | none => none
  | some (simFinal, simTrace) =>
    let tsim := simFinal.now
    let raceTaskWins := cfg.taskTime ≤ tsim
    let tfin := if cfg.isLongTask then (if raceTaskWins then cfg.taskTime else tsim) else cfg.taskTime
    let taskError : Option String :=
      if cfg.isLongTask && !raceTaskWins then none
      else match cfg.taskOutcome with | .ok _ => none | .error e => some e
    let taskResult : Option T :=
      if cfg.isLongTask && !raceTaskWins then none
      else match cfg.taskOutcome with | .ok v => some v | .error _ => none
    let t2 := if cfg.stopF tfin then tfin else max tfin tsim
    let stopAtT2 := cfg.stopF t2
    let termStatus := if stopAtT2 then "Task stopped by user."
                      else if taskError.isSome then "An error occurred."
                      else "Complete!"
    let termProgress := if stopAtT2 || taskError.isSome then simFinal.progress else 100
    let finalSt := settleWindow ⟨false, false, stopAtT2, termProgress, termStatus⟩ cfg.windowEvents
    let result : Except String (Option T) :=
      if taskError.isSome && !finalSt.stopFlag then Except.error (taskError.getD "")
      else Except.ok (if finalSt.stopFlag then none else taskResult)
    some ⟨t2, termStatus, termProgress, t2 + 1500, finalSt, result, simTrace, simFinal⟩

/- The constant-false flag schedule: the user never pauses or stops. -/
def neverF : Nat → Bool := fun _ => false

/- Concrete run configurations used to settle individual claims. -/

/- A non-long run whose task resolves to 42 at t = 150ms while the user
   pressed Stop at t = 60ms; no new run starts during the settle window. -/
def cfgC1 : RunConfig Nat :=
  ⟨[⟨"x", 100⟩], false, 150, .ok 42, neverF, (fun t => decide (60 ≤ t)), [], 1, 3⟩

/- The same run except that the task rejects with "boom". -/
def cfgC2 : RunConfig Nat :=
  ⟨[⟨"x", 100⟩], false, 150, .error "boom", neverF, (fun t => decide (60 ≤ t)), [], 1, 3⟩

/- A long-task run: one 50ms stage, task resolves with 7 only at t = 5000ms. -/
def cfgC3 : RunConfig Nat :=
  ⟨[⟨"x", 50⟩], true, 5000, .ok 7, neverF, neverF, [], 1, 2⟩

/- An unstopped run after which a second run starts 100ms into the settle
   window and reaches its own finally block 800ms in (with terminal message
   Complete! and progress 100), well before the first run wakes at 1500ms. -/
def cfgC6 : RunConfig Nat :=
  ⟨[⟨"x", 50⟩], false, 50, .ok 1, neverF, neverF,
   [WEvent.startRun, WEvent.finishRun "Complete!" true], 1, 2⟩

/-- Claim C1 (code_bug evidence): a run whose stop flag is set during the run
and is never cleared by a new run nevertheless resolves to the task result
(some 42), not to undefined, even though the terminal status written at
finalize time is the stop message.  The idle reset at line 92 clears stopFlag
before line 99 reads it. -/
theorem C1_code_bug :
    (performTaskWithProgress cfgC1).map (fun o => o.terminalStatus) = some "Task stopped by user."
  ∧ (performTaskWithProgress cfgC1).map (fun o => o.finalState.stopFlag) = some false
  ∧ (performTaskWithProgress cfgC1).map (fun o => o.result) = some (Except.ok (some 42)) :=
  ⟨rfl, rfl, rfl⟩

/-- Claim C2 (code_bug evidence): a run that is stopped and whose task throws
still rethrows the error to the caller (result is Except.error "boom"), so
stop does not take precedence over errored: the idle reset at line 92 clears
stopFlag before line 95 reads it. -/
theorem C2_code_bug :
    (performTaskWithProgress cfgC2).map (fun o => o.terminalStatus) = some "Task stopped by user."
  ∧ (performTaskWithProgress cfgC2).map (fun o => o.result) = some (Except.error "boom") :=
  ⟨rfl, rfl⟩

/-- Claim C3: there is a long-task run, never paused or stopped, in which the
simulator finishes before the real task and the race makes the run resolve to
undefined (Except.ok none) at settle time 1550ms while the task is still in
flight (it settles only at 5000ms). -/
theorem C3_race_undefined :
    (performTaskWithProgress cfgC3).map (fun o => (o.result, o.settleTime))
      = some (Except.ok none, 1550)
  ∧ cfgC3.isLongTask = true ∧ 1550 < cfgC3.taskTime :=
  ⟨rfl, rfl, by decide⟩

/-- Claim C6 (code_bug evidence): a new run starts during the settle window of
the first run (startRun is among the window events) and even finalizes inside
the window; at wake-up the first run still executes the idle reset because
isLoading is false again, wiping the new run terminal state (Complete!, 100)
down to the empty message and progress 0.  This contradicts the source
comment at line 88, which says the reset runs only if another process has not
started. -/
theorem C6_code_bug :
    WEvent.startRun ∈ cfgC6.windowEvents
  ∧ (performTaskWithProgress cfgC6).map
      (fun o => (o.finalState.statusMessage, o.finalState.progress, o.finalState.isLoading))
      = some ("", 0, false) :=
  ⟨by decide, rfl⟩

/-- Claim C9: for every run with no interference in the settle window (no
concurrent run and no clicks, the Pause and Stop buttons being hidden once
isLoading is false), the settled state has isLoading = false and
isPaused = false on every exit path, because the finally block at lines 82-83
writes both flags false and the idle reset does not touch them. -/
theorem C9_flags {T : Type} (cfg : RunConfig T) (out : RunOutcome T)
    (hev : cfg.windowEvents = [])
    (hrun : performTaskWithProgress cfg = some out) :
    out.finalState.isLoading = false ∧ out.finalState.isPaused = false := by
  unfold performTaskWithProgress at hrun
  rcases hsim : runStages cfg.pausedF cfg.stopF cfg.isLongTask (totalDurationOf cfg.stages)
      cfg.pfuel cfg.tfuel cfg.stages ⟨0, 0, "", 0⟩ [] with _ | ⟨simFinal, simTrace⟩
  · rw [hsim] at hrun
    exact absurd hrun (by simp)
  · rw [hsim] at hrun
    simp only [Option.some.injEq] at hrun
    subst hrun
    simp [settleWindow, hev]

/- A small successful run used to witness C9. -/
def cfgC9 : RunConfig Nat := ⟨[⟨"x", 50⟩], false, 60, .ok 5, neverF, neverF, [], 1, 2⟩

/-- Witness for C9: the hypotheses are satisfiable at a concrete run. -/
theorem C9_flags_witness :
    cfgC9.windowEvents = [] ∧
    ∃ out, performTaskWithProgress cfgC9 = some out
      ∧ out.finalState.isLoading = false ∧ out.finalState.isPaused = false :=
  have h : performTaskWithProgress cfgC9
      = some ((performTaskWithProgress cfgC9).get (by decide)) := (Option.some_get _).symm
  ⟨rfl, _, h, C9_flags cfgC9 _ rfl h⟩

/-- Claim C10: with an empty stages list, totalDuration is 0, the simulator
performs zero iterations (its write trace is empty and elapsed stays 0), so
the progress quotient of line 52 is never evaluated, and a successful,
unstopped task still finishes the run with terminal progress 100 and terminal
status message Complete!. -/
theorem C10_empty_stages (v taskTime : Nat) (isLong : Bool) (pausedF : Nat → Bool) (pf tf : Nat) :
    totalDurationOf ([] : List Stage) = 0
  ∧ ∃ out, performTaskWithProgress
        (⟨[], isLong, taskTime, .ok v, pausedF, neverF, [], pf, tf⟩ : RunConfig Nat) = some out
      ∧ out.simTrace = [] ∧ out.simFinal.elapsed = 0
      ∧ out.terminalStatus = "Complete!" ∧ out.terminalProgress = 100 := by
  refine ⟨rfl, ?_⟩
  unfold performTaskWithProgress
  cases isLong
  · exact ⟨_, rfl, rfl, rfl, rfl, rfl⟩
  · by_cases h : taskTime ≤ 0 <;>
      exact ⟨_, rfl, rfl, rfl, by simp [neverF, h], by simp [neverF, h]⟩

/- The number of 50ms ticks the inner loop performs for a stage of duration d
   under idealized timing: iterations run while 50 * j - 0 < d. -/
def tickCount (d : Nat) : Nat := (d + 49) / 50

lemma lt_tickCount (d j : Nat) : 50 * j < d ↔ j < tickCount d := by
  unfold tickCount; omega

lemma tickCount_bounds (d : Nat) : d ≤ 50 * tickCount d ∧ 50 * tickCount d ≤ d + 49 := by
  unfold tickCount; omega

/- The tick writes emitted by one stage with k remaining ticks, starting at
   time t0 with elapsed e0, for a never-paused never-stopped non-long run. -/
def stageTicks (totalDuration : Nat) (msg : String) : Nat → Nat → Nat → List SimWrite
  | 0, _, _ => []
  | k + 1, t0, e0 =>
      SimWrite.tick (t0 + 50) (e0 + 50)
          (some (min 100 (((e0 + 50 : Nat) : ℚ) / ((totalDuration : Nat) : ℚ) * 100))) msg
        :: stageTicks totalDuration msg k (t0 + 50) (e0 + 50)

/- The whole write trace of a never-paused never-stopped non-long run. -/
def expectedTrace (totalDuration : Nat) : List Stage → Nat → Nat → List SimWrite
  | [], _, _ => []
  | s :: rest, t0, e0 =>
      SimWrite.setStatus t0 s.message
        :: (stageTicks totalDuration s.message (tickCount s.duration) t0 e0
            ++ expectedTrace totalDuration rest (t0 + 50 * tickCount s.duration)
                 (e0 + 50 * tickCount s.duration))

/- The final simulator state of such a run. -/
def noPauseFinal (totalDuration : Nat) : List Stage → SimState → SimState
  | [], st => st
  | s :: rest, st =>
      noPauseFinal totalDuration rest
        ⟨st.now + 50 * tickCount s.duration, st.elapsed + 50 * tickCount s.duration, s.message,
         if tickCount s.duration = 0 then st.progress
         else min 100 (((st.elapsed + 50 * tickCount s.duration : Nat) : ℚ)
                        / ((totalDuration : Nat) : ℚ) * 100)⟩

def totalTicks (stages : List Stage) : Nat :=
  stages.foldr (fun s acc => tickCount s.duration + acc) 0

lemma totalTicks_cons (s : Stage) (rest : List Stage) :
    totalTicks (s :: rest) = tickCount s.duration + totalTicks rest := rfl

lemma pauseWait_neverF (stopF : Nat → Bool) (pf t : Nat) :
    pauseWait neverF stopF pf t = some t := by
  cases pf <;> simp [pauseWait, neverF]

lemma tickLoop_neverF (total d start : Nat) (msg : String) :
    ∀ (k j fuel e0 : Nat) (pr : ℚ) (tr : List SimWrite) (pf : Nat),
      j + k = tickCount d → k ≤ fuel →
      tickLoop neverF neverF false total d start pf fuel ⟨start + 50 * j, e0, msg, pr⟩ tr
        = some (⟨start + 50 * tickCount d, e0 + 50 * k, msg,
                 if k = 0 then pr
                 else min 100 (((e0 + 50 * k : Nat) : ℚ) / ((total : Nat) : ℚ) * 100)⟩,
                tr ++ stageTicks total msg k (start + 50 * j) e0) := by
  intro k
  induction k with
  | zero =>
    intro j fuel e0 pr tr pf hj hf
    have hj2 : j = tickCount d := by omega
    have hb := (tickCount_bounds d).1
    have hc : ¬ (50 * tickCount d < d) := by omega
    subst hj2
    cases fuel <;> simp [tickLoop, hc, stageTicks]
  | succ k ih =>
    intro j fuel e0 pr tr pf hj hf
    have hguard : start + 50 * j - start < d := by
      have := (lt_tickCount d j).2 (by omega)
      omega
    cases fuel with
    | zero => omega
    | succ f =>
      have hnow : start + 50 * j + 50 = start + 50 * (j + 1) := by ring
      have ihx := ih (j + 1) f (e0 + 50)
          (min 100 (((e0 + 50 : Nat) : ℚ) / ((total : Nat) : ℚ) * 100))
          (tr ++ [SimWrite.tick (start + 50 * j + 50) (e0 + 50)
              (some (min 100 (((e0 + 50 : Nat) : ℚ) / ((total : Nat) : ℚ) * 100))) msg]) pf
          (by omega) (by omega)
      rw [hnow] at ihx
      simp only [tickLoop, hguard, if_true, neverF, Bool.false_eq_true, if_false,
        pauseWait_neverF, Bool.ite_eq_true_distrib]
      rw [hnow, ihx]
      have he : e0 + 50 + 50 * k = e0 + 50 * (k + 1) := by ring
      rw [he]
      by_cases hk : k = 0
      · subst hk
        simp [stageTicks, List.append_assoc]
        omega
      · simp only [hk, if_false, Nat.succ_ne_zero, stageTicks, List.append_assoc,
          List.singleton_append, List.cons_append, List.nil_append]
        rw [hnow]

lemma runStages_neverF (total : Nat) :
    ∀ (stages : List Stage) (st : SimState) (tr : List SimWrite) (pf tf : Nat),
      (∀ s ∈ stages, tickCount s.duration ≤ tf) →
      runStages neverF neverF false total pf tf stages st tr
        = some (noPauseFinal total stages st,
                tr ++ expectedTrace total stages st.now st.elapsed) := by
  intro stages
  induction stages with
  | nil => intro st tr pf tf hf; simp [runStages, noPauseFinal, expectedTrace]
  | cons s rest ih =>
    intro st tr pf tf hf
    have h1 : tickCount s.duration ≤ tf := hf s (by simp)
    have h2 : ∀ x ∈ rest, tickCount x.duration ≤ tf := fun x hx => hf x (by simp [hx])
    have htl := tickLoop_neverF total s.duration st.now s.message (tickCount s.duration) 0 tf
        st.elapsed st.progress (tr ++ [SimWrite.setStatus st.now s.message]) pf (by omega) h1
    rw [Nat.mul_zero, Nat.add_zero] at htl
    simp only [runStages, neverF, Bool.false_eq_true, if_false, pauseWait_neverF]
    rw [htl]
    show runStages neverF neverF false total pf tf rest
        ⟨st.now + 50 * tickCount s.duration, st.elapsed + 50 * tickCount s.duration, s.message,
         if tickCount s.duration = 0 then st.progress
         else min 100 (((st.elapsed + 50 * tickCount s.duration : Nat) : ℚ)
                        / ((total : Nat) : ℚ) * 100)⟩
        (tr ++ [SimWrite.setStatus st.now s.message]
           ++ stageTicks total s.message (tickCount s.duration) st.now st.elapsed)
      = _
    rw [ih _ _ pf tf h2]
    simp [noPauseFinal, expectedTrace, List.append_assoc]

lemma noPauseFinal_now (total : Nat) :
    ∀ (stages : List Stage) (st : SimState),
      (noPauseFinal total stages st).now = st.now + 50 * totalTicks stages := by
  intro stages
  induction stages with
  | nil => intro st; simp [noPauseFinal, totalTicks]
  | cons s rest ih =>
    intro st
    rw [noPauseFinal, ih, totalTicks_cons]
    simp only
    ring

lemma noPauseFinal_elapsed (total : Nat) :
    ∀ (stages : List Stage) (st : SimState),
      (noPauseFinal total stages st).elapsed = st.elapsed + 50 * totalTicks stages := by
  intro stages
  induction stages with
  | nil => intro st; simp [noPauseFinal, totalTicks]
  | cons s rest ih =>
    intro st
    rw [noPauseFinal, ih, totalTicks_cons]
    simp only
    ring

lemma noPauseFinal_progress (total : Nat) :
    ∀ (stages : List Stage) (st : SimState),
      (noPauseFinal total stages st).progress
        = if totalTicks stages = 0 then st.progress
          else min 100 (((st.elapsed + 50 * totalTicks stages : Nat) : ℚ)
                         / ((total : Nat) : ℚ) * 100) := by
  intro stages
  induction stages with
  | nil => intro st; simp [noPauseFinal, totalTicks]
  | cons s rest ih =>
    intro st
    rw [totalTicks_cons, noPauseFinal, ih]
    by_cases hk : tickCount s.duration = 0
    · by_cases hr : totalTicks rest = 0
      · simp [hk, hr]
      · simp only [hk, hr, if_false, if_true, Nat.zero_add, eq_self_iff_true]
        simp [hk, hr]
    · by_cases hr : totalTicks rest = 0
      · simp only [hr, if_true, if_pos rfl]
        have hnz : tickCount s.duration + totalTicks rest ≠ 0 := by omega
        simp [hk, hr, hnz]
      · have hnz : tickCount s.duration + totalTicks rest ≠ 0 := by omega
        simp only [hr, if_false, hnz]
        have : st.elapsed + 50 * tickCount s.duration + 50 * totalTicks rest
            = st.elapsed + 50 * (tickCount s.duration + totalTicks rest) := by ring
        rw [this]

lemma totalDurationOf_acc (l : List Stage) :
    ∀ acc, l.foldl (fun a s => a + s.duration) acc
      = acc + l.foldl (fun a s => a + s.duration) 0 := by
  induction l with
  | nil => intro acc; simp
  | cons s t ih =>
    intro acc
    simp only [List.foldl]
    rw [ih (acc + s.duration), ih (0 + s.duration)]
    omega

lemma totalDurationOf_cons (s : Stage) (rest : List Stage) :
    totalDurationOf (s :: rest) = s.duration + totalDurationOf rest := by
  unfold totalDurationOf
  simp only [List.foldl]
  rw [totalDurationOf_acc]
  omega

lemma totalTicks_bounds (l : List Stage) :
    totalDurationOf l ≤ 50 * totalTicks l
    ∧ 50 * totalTicks l ≤ totalDurationOf l + 50 * l.length := by
  induction l with
  | nil => simp [totalDurationOf, totalTicks]
  | cons s rest ih =>
    obtain ⟨ih1, ih2⟩ := ih
    rw [totalDurationOf_cons, totalTicks_cons]
    have hb := tickCount_bounds s.duration
    simp only [List.length_cons]
    omega

lemma stageTicks_mem (total : Nat) (msg : String) :
    ∀ (k t0 e0 t e : Nat) (p : Option ℚ) (m : String),
      SimWrite.tick t e p m ∈ stageTicks total msg k t0 e0 →
      p = some (min 100 ((e : ℚ) / ((total : Nat) : ℚ) * 100)) ∧ m = msg := by
  intro k
  induction k with
  | zero => intro t0 e0 t e p m h; simp [stageTicks] at h
  | succ k ih =>
    intro t0 e0 t e p m h
    rw [stageTicks] at h
    rcases List.mem_cons.1 h with h1 | h2
    · simp only [SimWrite.tick.injEq] at h1
      obtain ⟨ht, he, hp, hm⟩ := h1
      subst he
      exact ⟨hp, hm⟩
    · exact ih _ _ _ _ _ _ h2

lemma expectedTrace_tick_mem (total : Nat) :
    ∀ (stages : List Stage) (t0 e0 t e : Nat) (p : Option ℚ) (m : String),
      SimWrite.tick t e p m ∈ expectedTrace total stages t0 e0 →
      p = some (min 100 ((e : ℚ) / ((total : Nat) : ℚ) * 100))
      ∧ ∃ s ∈ stages, m = s.message := by
  intro stages
  induction stages with
  | nil => intro t0 e0 t e p m h; simp [expectedTrace] at h
  | cons s rest ih =>
    intro t0 e0 t e p m h
    rw [expectedTrace] at h
    rcases List.mem_cons.1 h with h1 | h2
    · exact absurd h1 (by simp)
    · rcases List.mem_append.1 h2 with h3 | h4
      · obtain ⟨hp, hm⟩ := stageTicks_mem total s.message _ _ _ _ _ _ _ h3
        exact ⟨hp, s, by simp, hm⟩
      · obtain ⟨hp, s2, hs2, hm⟩ := ih _ _ _ _ _ _ h4
        exact ⟨hp, s2, by simp [hs2], hm⟩

/-- Claim C4 (amended): for every stage list, a non-long run that is never
paused or stopped produces exactly the expected trace: each stage first
writes its label to statusMessage and then performs ceil(duration/50) ticks,
each tick reporting progress = min(100, elapsed/totalDuration*100) with the
status equal to the label of the stage being executed; the simulator finishes
at time 50 * the total tick count, which lies between the sum of the stage
durations and that sum plus one 50ms tick per stage (not one tick overall, as
the original claim says), and the final reported progress is 100 whenever the
total duration is positive. -/
theorem C4_amended (stages : List Stage) (pf tf : Nat)
    (hfuel : ∀ s ∈ stages, tickCount s.duration ≤ tf)
    (hpos : 0 < totalDurationOf stages) :
    ∃ fin tr,
      runStages neverF neverF false (totalDurationOf stages) pf tf stages ⟨0, 0, "", 0⟩ []
        = some (fin, tr)
      ∧ tr = expectedTrace (totalDurationOf stages) stages 0 0
      ∧ (∀ t e p m, SimWrite.tick t e p m ∈ tr →
          p = some (min 100 ((e : ℚ) / ((totalDurationOf stages : Nat) : ℚ) * 100))
          ∧ ∃ s ∈ stages, m = s.message)
      ∧ fin.now = 50 * totalTicks stages
      ∧ totalDurationOf stages ≤ fin.now
      ∧ fin.now ≤ totalDurationOf stages + 50 * stages.length
      ∧ fin.progress = 100 := by
  have hrun := runStages_neverF (totalDurationOf stages) stages ⟨0, 0, "", 0⟩ [] pf tf hfuel
  rw [List.nil_append] at hrun
  have hb := totalTicks_bounds stages
  have hnow : (noPauseFinal (totalDurationOf stages) stages ⟨0, 0, "", 0⟩).now
      = 50 * totalTicks stages := by
    rw [noPauseFinal_now]
    simp
  refine ⟨_, _, hrun, rfl, ?_, hnow, ?_, ?_, ?_⟩
  · intro t e p m hm
    exact expectedTrace_tick_mem _ _ _ _ _ _ _ _ hm
  · rw [hnow]; omega
  · rw [hnow]; omega
  · rw [noPauseFinal_progress]
    have h1 : totalTicks stages ≠ 0 := by omega
    rw [if_neg h1]
    have htQ : ((totalDurationOf stages : Nat) : ℚ)
        ≤ (((0 : Nat) + 50 * totalTicks stages : Nat) : ℚ) := by
      exact_mod_cast (by omega : totalDurationOf stages ≤ 0 + 50 * totalTicks stages)
    have hpQ : (0 : ℚ) < ((totalDurationOf stages : Nat) : ℚ) := by exact_mod_cast hpos
    have h2 : (1 : ℚ) ≤ (((0 : Nat) + 50 * totalTicks stages : Nat) : ℚ)
        / ((totalDurationOf stages : Nat) : ℚ) := (one_le_div hpQ).2 htQ
    have h3 : (100 : ℚ) ≤ (((0 : Nat) + 50 * totalTicks stages : Nat) : ℚ)
        / ((totalDurationOf stages : Nat) : ℚ) * 100 := by nlinarith
    exact min_eq_left h3

/-- Counterexample to claim C4 as stated: for the stage list
[(a, 60ms), (b, 60ms)] the simulator reaches 100 percent only after 200ms,
which exceeds the 120ms sum of the stage durations by more than one 50ms
tick. -/
theorem C4_counterexample :
    (runStages neverF neverF false 120 0 2 [⟨"a", 60⟩, ⟨"b", 60⟩] ⟨0, 0, "", 0⟩ []).map
        (fun r => (r.1.now, r.1.progress)) = some (200, 100)
  ∧ totalDurationOf [⟨"a", 60⟩, ⟨"b", 60⟩] = 120
  ∧ 120 + 50 < 200 := by
  refine ⟨?_, rfl, by norm_num⟩
  simp only [runStages, tickLoop, pauseWait, neverF]
  norm_num [min_def]

/-- Witness for C4: the amended theorem applied to the concrete stage list
[(a, 60ms), (b, 60ms)] with sufficient fuel. -/
theorem C4_amended_witness :
    ∃ fin tr,
      runStages neverF neverF false (totalDurationOf [⟨"a", 60⟩, ⟨"b", 60⟩]) 0 2
          [⟨"a", 60⟩, ⟨"b", 60⟩] ⟨0, 0, "", 0⟩ [] = some (fin, tr)
      ∧ tr = expectedTrace (totalDurationOf [⟨"a", 60⟩, ⟨"b", 60⟩]) [⟨"a", 60⟩, ⟨"b", 60⟩] 0 0
      ∧ (∀ t e p m, SimWrite.tick t e p m ∈ tr →
          p = some (min 100 ((e : ℚ) / ((totalDurationOf [⟨"a", 60⟩, ⟨"b", 60⟩] : Nat) : ℚ) * 100))
          ∧ ∃ s ∈ [(⟨"a", 60⟩ : Stage), ⟨"b", 60⟩], m = s.message)
      ∧ fin.now = 50 * totalTicks [⟨"a", 60⟩, ⟨"b", 60⟩]
      ∧ totalDurationOf [⟨"a", 60⟩, ⟨"b", 60⟩] ≤ fin.now
      ∧ fin.now ≤ totalDurationOf [⟨"a", 60⟩, ⟨"b", 60⟩] + 50 * ([(⟨"a", 60⟩ : Stage), ⟨"b", 60⟩]).length
      ∧ fin.progress = 100 :=
  C4_amended [⟨"a", 60⟩, ⟨"b", 60⟩] 0 2 (by decide) (by decide)

lemma pauseWait_exit (pausedF stopF : Nat → Bool) :
    ∀ (pf t t1 : Nat), pauseWait pausedF stopF pf t = some t1 →
      t ≤ t1 ∧ (pausedF t1 = false ∨ stopF t1 = true) := by
  intro pf
  induction pf with
  | zero =>
    intro t t1 h
    rw [pauseWait] at h
    by_cases hc : (pausedF t && !(stopF t)) = true
    · rw [if_pos hc] at h
      exact absurd h (by simp)
    · rw [if_neg hc] at h
      simp only [Option.some.injEq] at h
      subst h
      refine ⟨le_refl t, ?_⟩
      simp only [Bool.and_eq_true, Bool.not_eq_true', not_and] at hc
      by_cases hp : pausedF t = true
      · exact Or.inr (by simp [hc hp])
      · exact Or.inl (by simp at hp; exact hp)
  | succ pf ih =>
    intro t t1 h
    rw [pauseWait] at h
    by_cases hc : (pausedF t && !(stopF t)) = true
    · rw [if_pos hc] at h
      obtain ⟨h1, h2⟩ := ih _ _ h
      exact ⟨by omega, h2⟩
    · rw [if_neg hc] at h
      simp only [Option.some.injEq] at h
      subst h
      refine ⟨le_refl t, ?_⟩
      simp only [Bool.and_eq_true, Bool.not_eq_true', not_and] at hc
      by_cases hp : pausedF t = true
      · exact Or.inr (by simp [hc hp])
      · exact Or.inl (by simp at hp; exact hp)

/-- Claim C5 (amended): whenever the simulator reaches a pause checkpoint and
the pause wait exits at time t1, only time has advanced (t <= t1) and the wait
exits exactly when the pause flag is clear or the stop flag is set; the loop
then resumes the same stage (same start deadline, same status) from the same
elapsed value, performing the next 50ms tick.  Because the deadline
Date.now() - start < duration is measured in wall-clock time, which keeps
running while paused, the time spent paused is deducted from the remaining
ticks of the current stage, so a long pause skips the rest of the stage and
that progress is permanently lost (see the counterexample). -/
theorem C5_amended (pausedF stopF : Nat → Bool) (pf t t1 : Nat)
    (hw : pauseWait pausedF stopF pf t = some t1) :
    t ≤ t1
  ∧ (pausedF t1 = false ∨ stopF t1 = true)
  ∧ ∀ (isLong : Bool) (total d start fuel : Nat) (st : SimState) (tr : List SimWrite),
      st.now = t → st.now - start < d → stopF st.now = false →
      tickLoop pausedF stopF isLong total d start pf (fuel + 1) st tr
        = tickLoop pausedF stopF isLong total d start pf fuel
            ⟨t1 + 50, st.elapsed + 50, st.status,
             if isLong then st.progress
             else min 100 (((st.elapsed + 50 : Nat) : ℚ) / ((total : Nat) : ℚ) * 100)⟩
            (tr ++ [SimWrite.tick (t1 + 50) (st.elapsed + 50)
                (if isLong then none
                 else some (min 100 (((st.elapsed + 50 : Nat) : ℚ) / ((total : Nat) : ℚ) * 100)))
                st.status]) := by
  obtain ⟨h1, h2⟩ := pauseWait_exit pausedF stopF pf t t1 hw
  refine ⟨h1, h2, ?_⟩
  intro isLong total d start fuel st tr hnow hg hs
  rw [tickLoop, if_pos hg, if_neg (by simp [hs]), hnow]
  simp only [hw]
  cases isLong <;> simp

/- The pause schedule for the C5 counterexample: paused over [50, 450). -/
def pauseSchedC5 : Nat → Bool := fun t => decide (50 ≤ t) && decide (t < 450)

/-- Counterexample to claim C5 as stated: one stage of 150ms.  Unpaused, the
simulator performs 3 ticks, ending with elapsed 150 and progress 100 at time
150.  Pausing from t = 50ms to t = 450ms freezes the state while paused and
resumes the same stage with the same elapsed, but the wall-clock deadline has
expired, so the run ends with elapsed 100 and progress 200/3: the remaining
tick was skipped and its progress permanently lost. -/
theorem C5_counterexample :
    (runStages pauseSchedC5 neverF false 150 5 5 [⟨"x", 150⟩] ⟨0, 0, "", 0⟩ []).map
        (fun r => (r.1.elapsed, r.1.progress, r.1.now)) = some (100, 200 / 3, 500)
  ∧ (runStages neverF neverF false 150 5 5 [⟨"x", 150⟩] ⟨0, 0, "", 0⟩ []).map
        (fun r => (r.1.elapsed, r.1.progress, r.1.now)) = some (150, 100, 150) := by
  constructor <;>
    (simp only [runStages, tickLoop, pauseWait, neverF, pauseSchedC5]; norm_num [min_def])

/-- Witness for C5: the amended theorem applied to the pause wait that starts
at t = 50ms under pauseSchedC5 and exits at t = 450ms, and to the concrete
interrupted tick of a 150ms stage. -/
theorem C5_amended_witness :
    50 ≤ 450
  ∧ (pauseSchedC5 450 = false ∨ neverF 450 = true)
  ∧ tickLoop pauseSchedC5 neverF false 150 150 0 5 3 ⟨50, 50, "x", 100 / 3⟩ []
      = tickLoop pauseSchedC5 neverF false 150 150 0 5 2
          ⟨500, 100, "x", min 100 (((100 : Nat) : ℚ) / ((150 : Nat) : ℚ) * 100)⟩
          ([] ++ [SimWrite.tick 500 100
              (some (min 100 (((100 : Nat) : ℚ) / ((150 : Nat) : ℚ) * 100))) "x"]) :=
  ⟨(C5_amended pauseSchedC5 neverF 5 50 450 (by decide)).1,
   (C5_amended pauseSchedC5 neverF 5 50 450 (by decide)).2.1,
   (C5_amended pauseSchedC5 neverF 5 50 450 (by decide)).2.2 false 150 150 0 2
     ⟨50, 50, "x", 100 / 3⟩ [] rfl (by decide) rfl⟩

/-
Playback engine (src/unnamed/part_001, class WhisperMusicStudio).  Times are
rationals standing for audioContext.currentTime seconds.  Every
AudioBufferSourceNode ever created is kept in a history list so that
statements about stopped sources and detached ended callbacks can be made;
current is the index of currentSourceNode, none standing for null.  hasCtx is
true when the AudioContext constructor succeeded (part_001 lines 302-308) and
is fixed for the life of the component.  hasTrack stands for
currentTrack.audioBuffer being non-null.
-/

/- One buffer source: the offset passed to source.start(0, offset) at line
   602, whether stop() has been called, and whether the onended callback of
   line 603 is still attached. -/
structure SourceNode where
  startOffset : ℚ
  stopped : Bool
  onendedAttached : Bool
deriving DecidableEq

structure EngineState where
  sources : List SourceNode
  current : Option Nat
  trackStartTime : ℚ
  pausedTime : ℚ
  isPlaying : Bool
  currentTime : ℚ
  barHeights : List ℚ
  animationRunning : Bool
  hasTrack : Bool
deriving DecidableEq

/- Initial field values of part_001 lines 295-297, 319, 325-327, 342. -/
def initEngine : EngineState :=
  ⟨[], none, 0, 0, false, 0, List.replicate 50 2, false, false⟩

/- Mark source i stopped and detach its ended callback (lines 620-621). -/
def markStopped : List SourceNode → Nat → List SourceNode
  | [], _ => []
  | s :: rest, 0 => { s with stopped := true, onendedAttached := false } :: rest
  | s :: rest, i + 1 => s :: markStopped rest i

/- Lines 617-627, _pauseCurrentTrack: guarded by currentSourceNode and
   audioContext being present; stores elapsed time, stops the source, detaches
   onended, clears the node, stops playing, cancels the visualizer frame and
   resets the bar heights. -/
def pauseCurrentTrack (hasCtx : Bool) (now : ℚ) (st : EngineState) : EngineState :=
  match st.current with
  | none => st
  | some i =>
    if hasCtx then
      { st with pausedTime := now - st.trackStartTime,
                sources := markStopped st.sources i,
                current := none,
                isPlaying := false,
                animationRunning := false,
                barHeights := List.replicate 50 2 }
    else st

/- Lines 586-615, _playCurrentTrack: guarded by audioContext and
   currentTrack.audioBuffer; creates a fresh source started at offset
   pausedTime with onended attached, makes it current, sets
   trackStartTime = now - pausedTime, starts playing and the visualizer. -/
def playCurrentTrack (hasCtx : Bool) (now : ℚ) (st : EngineState) : EngineState :=
  if !hasCtx || !st.hasTrack then st
  else
    { st with sources := st.sources ++ [⟨st.pausedTime, false, true⟩],
              current := some st.sources.length,
              trackStartTime := now - st.pausedTime,
              isPlaying := true,
              animationRunning := true }

/- Lines 603-609, the onended handler of source i: it can only fire while
   still attached; if isPlaying is true (natural end of track) it performs
   _pauseCurrentTrack and then zeroes currentTime and pausedTime. -/
def onEnded (hasCtx : Bool) (now : ℚ) (i : Nat) (st : EngineState) : EngineState :=
  match st.sources[i]? with
  | none => st
  | some s =>
    if s.onendedAttached then
      if st.isPlaying then
        { pauseCurrentTrack hasCtx now st with currentTime := 0, pausedTime := 0 }
      else st
    else st

/- Lines 548-554, _updateTrack: pause first, then install the new track and
   zero isPlaying, currentTime and pausedTime. -/
def updateTrack (hasCtx : Bool) (now : ℚ) (hasBuf : Bool) (st : EngineState) : EngineState :=
  { pauseCurrentTrack hasCtx now st with
    hasTrack := hasBuf, isPlaying := false, currentTime := 0, pausedTime := 0 }

/- Lines 629-632, _togglePlay. -/
def togglePlay (hasCtx : Bool) (now : ℚ) (st : EngineState) : EngineState :=
  if !st.hasTrack then st
  else if st.isPlaying then pauseCurrentTrack hasCtx now st
  else playCurrentTrack hasCtx now st

/- The externally reachable operations of the engine: the play and pause
   entry points are only reachable through _togglePlay, the onended handler
   and _updateTrack (the latter published through the app context). -/
inductive EngineOp where
  | toggle (now : ℚ)
  | ended (i : Nat) (now : ℚ)
  | update (hasBuf : Bool) (now : ℚ)
deriving DecidableEq

def applyOp (hasCtx : Bool) (st : EngineState) (op : EngineOp) : EngineState :=
  match op with
  | .toggle now => togglePlay hasCtx now st
  | .ended i now => onEnded hasCtx now i st
  | .update b now => updateTrack hasCtx now b st

def runOps (hasCtx : Bool) (ops : List EngineOp) : EngineState :=
  ops.foldl (applyOp hasCtx) initEngine

/- The session invariant: every source other than the current one is stopped
   with its ended callback detached; the current source, when present, is
   live and attached; isPlaying tracks the presence of a current source; and
   without an AudioContext no source is ever current. -/
def EngineInv (hasCtx : Bool) (st : EngineState) : Prop :=
  (∀ i s, st.sources[i]? = some s → st.current ≠ some i →
     s.stopped = true ∧ s.onendedAttached = false)
  ∧ (∀ i, st.current = some i →
     ∃ s, st.sources[i]? = some s ∧ s.stopped = false ∧ s.onendedAttached = true)
  ∧ st.isPlaying = st.current.isSome
  ∧ (hasCtx = false → st.current = none)

lemma markStopped_cases :
    ∀ (l : List SourceNode) (i j : Nat) (s : SourceNode),
      (markStopped l i)[j]? = some s →
      (i = j ∧ s.stopped = true ∧ s.onendedAttached = false)
      ∨ (i ≠ j ∧ l[j]? = some s) := by
  intro l
  induction l with
  | nil => intro i j s h; simp [markStopped] at h
  | cons a t ih =>
    intro i j s h
    cases i with
    | zero =>
      cases j with
      | zero =>
        left
        simp only [markStopped, List.getElem?_cons_zero, Option.some.injEq] at h
        subst h
        exact ⟨rfl, rfl, rfl⟩
      | succ j =>
        right
        simp only [markStopped, List.getElem?_cons_succ] at h
        exact ⟨by omega, by simpa using h⟩
    | succ i =>
      cases j with
      | zero =>
        right
        simp only [markStopped, List.getElem?_cons_zero] at h
        exact ⟨by omega, by simpa using h⟩
      | succ j =>
        simp only [markStopped, List.getElem?_cons_succ] at h
        rcases ih i j s h with ⟨he, h1, h2⟩ | ⟨hne, hold⟩
        · exact Or.inl ⟨by omega, h1, h2⟩
        · exact Or.inr ⟨by omega, by simpa using hold⟩

lemma engineInv_init (hasCtx : Bool) : EngineInv hasCtx initEngine := by
  refine ⟨?_, ?_, rfl, fun _ => rfl⟩
  · intro i s h
    simp [initEngine] at h
  · intro i h
    simp [initEngine] at h

lemma pause_current (hasCtx : Bool) (now : ℚ) (st : EngineState) :
    (pauseCurrentTrack hasCtx now st).current = none
    ∨ (hasCtx = false ∧ pauseCurrentTrack hasCtx now st = st) := by
  unfold pauseCurrentTrack
  cases hcur : st.current with
  | none => left; simp only [hcur]
  | some i =>
    cases hctx : hasCtx with
    | true => left; simp
    | false => right; exact ⟨rfl, by simp⟩

lemma engineInv_pause (hasCtx : Bool) (now : ℚ) (st : EngineState)
    (h : EngineInv hasCtx st) : EngineInv hasCtx (pauseCurrentTrack hasCtx now st) := by
  obtain ⟨h1, h2, h3, h4⟩ := h
  unfold pauseCurrentTrack
  cases hcur : st.current with
  | none => exact ⟨h1, h2, h3, h4⟩
  | some i =>
    cases hctx : hasCtx with
    | false =>
      exfalso
      have hx := h4 hctx
      rw [hcur] at hx
      cases hx
    | true =>
      simp only [if_true]
      refine ⟨?_, ?_, rfl, ?_⟩
      · intro j s hg _
        rcases markStopped_cases st.sources i j s hg with ⟨_, hs1, hs2⟩ | ⟨hne, hold⟩
        · exact ⟨hs1, hs2⟩
        · refine h1 j s hold ?_
          rw [hcur]
          simp only [ne_eq, Option.some.injEq]
          omega
      · intro j hj
        simp at hj
      · intro hf
        rfl

lemma engineInv_play (hasCtx : Bool) (now : ℚ) (st : EngineState)
    (h : EngineInv hasCtx st) (hnp : st.current = none) :
    EngineInv hasCtx (playCurrentTrack hasCtx now st) := by
  obtain ⟨h1, h2, h3, h4⟩ := h
  unfold playCurrentTrack
  by_cases hg : (!hasCtx || !st.hasTrack) = true
  · rw [if_pos hg]
    exact ⟨h1, h2, h3, h4⟩
  · rw [if_neg hg]
    have hctx : hasCtx = true := by revert hg; cases hasCtx <;> simp
    refine ⟨?_, ?_, rfl, ?_⟩
    · intro j s hgj hne
      have hjne : j ≠ st.sources.length := fun e => hne (by rw [e])
      have hlen : j < st.sources.length + 1 := by
        have hx := (List.getElem?_eq_some.1 hgj).1
        simpa using hx
      have hjlt : j < st.sources.length := by omega
      rw [List.getElem?_append_left hjlt] at hgj
      exact h1 j s hgj (by rw [hnp]; simp)
    · intro j hj
      simp only [Option.some.injEq] at hj
      subst hj
      exact ⟨⟨st.pausedTime, false, true⟩, List.getElem?_concat_length _ _, rfl, rfl⟩
    · intro hf
      rw [hf] at hctx
      exact absurd hctx (by simp)

lemma engineInv_applyOp (hasCtx : Bool) (st : EngineState) (op : EngineOp)
    (h : EngineInv hasCtx st) : EngineInv hasCtx (applyOp hasCtx st op) := by
  obtain ⟨h1, h2, h3, h4⟩ := h
  cases op with
  | toggle now =>
    simp only [applyOp]
    unfold togglePlay
    by_cases ht : (!st.hasTrack) = true
    · rw [if_pos ht]
      exact ⟨h1, h2, h3, h4⟩
    · rw [if_neg ht]
      by_cases hp : st.isPlaying = true
      · rw [if_pos hp]
        exact engineInv_pause _ _ _ ⟨h1, h2, h3, h4⟩
      · rw [if_neg hp]
        refine engineInv_play _ _ _ ⟨h1, h2, h3, h4⟩ ?_
        have hx : st.current.isSome = false := by
          rw [← h3]
          simpa using hp
        exact Option.not_isSome_iff_eq_none.1 (by simp [hx])
  | ended i now =>
    simp only [applyOp]
    unfold onEnded
    cases hgi : st.sources[i]? with
    | none => simp only [hgi]; exact ⟨h1, h2, h3, h4⟩
    | some s =>
      simp only [hgi]
      by_cases ha : s.onendedAttached = true
      · rw [if_pos ha]
        by_cases hp : st.isPlaying = true
        · rw [if_pos hp]
          obtain ⟨p1, p2, p3, p4⟩ := engineInv_pause hasCtx now st ⟨h1, h2, h3, h4⟩
          exact ⟨p1, p2, p3, p4⟩
        · rw [if_neg hp]
          exact ⟨h1, h2, h3, h4⟩
      · rw [if_neg ha]
        exact ⟨h1, h2, h3, h4⟩
  | update b now =>
    simp only [applyOp]
    unfold updateTrack
    obtain ⟨p1, p2, p3, p4⟩ := engineInv_pause hasCtx now st ⟨h1, h2, h3, h4⟩
    have hcn : (pauseCurrentTrack hasCtx now st).current = none := by
      rcases pause_current hasCtx now st with hn | ⟨hf, _⟩
      · exact hn
      · exact p4 hf
    refine ⟨p1, p2, ?_, fun _ => hcn⟩
    rw [hcn]
    rfl

lemma engineInv_runOps (hasCtx : Bool) (ops : List EngineOp) :
    EngineInv hasCtx (runOps hasCtx ops) := by
  unfold runOps
  have haux : ∀ (l : List EngineOp) (st : EngineState), EngineInv hasCtx st →
      EngineInv hasCtx (l.foldl (applyOp hasCtx) st) := by
    intro l
    induction l with
    | nil => intro st h; exact h
    | cons op t ih => intro st h; exact ih _ (engineInv_applyOp hasCtx st op h)
  exact haux ops initEngine (engineInv_init hasCtx)

/-- Claim C8: after any reachable sequence of engine operations, a call to
updateTrack tears the active playback session down first: afterwards
isPlaying is false, currentTime and pausedTime are 0, no source is current,
every source ever created is stopped with its ended callback detached (so at
most one active source node exists, namely none, and no ended callback can
fire twice for a session), and any subsequent ended event is a no-op. -/
theorem C8_update_teardown (hasCtx : Bool) (ops : List EngineOp) (hasBuf : Bool) (now : ℚ) :
    (updateTrack hasCtx now hasBuf (runOps hasCtx ops)).isPlaying = false
  ∧ (updateTrack hasCtx now hasBuf (runOps hasCtx ops)).currentTime = 0
  ∧ (updateTrack hasCtx now hasBuf (runOps hasCtx ops)).pausedTime = 0
  ∧ (updateTrack hasCtx now hasBuf (runOps hasCtx ops)).current = none
  ∧ (∀ (i : Nat) (s : SourceNode),
       (updateTrack hasCtx now hasBuf (runOps hasCtx ops)).sources[i]? = some s →
       s.stopped = true ∧ s.onendedAttached = false)
  ∧ (∀ i now2, onEnded hasCtx now2 i (updateTrack hasCtx now hasBuf (runOps hasCtx ops))
       = updateTrack hasCtx now hasBuf (runOps hasCtx ops)) := by
  obtain ⟨h1, h2, h3, h4⟩ := engineInv_runOps hasCtx ops
  obtain ⟨p1, p2, p3, p4⟩ :=
    engineInv_pause hasCtx now (runOps hasCtx ops) ⟨h1, h2, h3, h4⟩
  have hcn : (pauseCurrentTrack hasCtx now (runOps hasCtx ops)).current = none := by
    rcases pause_current hasCtx now (runOps hasCtx ops) with hn | ⟨hf, _⟩
    · exact hn
    · exact p4 hf
  have hdead : ∀ (i : Nat) (s : SourceNode),
      (updateTrack hasCtx now hasBuf (runOps hasCtx ops)).sources[i]? = some s →
      s.stopped = true ∧ s.onendedAttached = false := by
    intro i s hg
    exact p1 i s hg (by rw [hcn]; simp)
  refine ⟨rfl, rfl, rfl, ?_, hdead, ?_⟩
  · exact hcn
  · intro i now2
    unfold onEnded
    cases hg : (updateTrack hasCtx now hasBuf (runOps hasCtx ops)).sources[i]? with
    | none => simp only
    | some s =>
      simp only
      rw [if_neg (by simp [(hdead i s hg).2])]

/-- Claim C7: when the current source of a reachable playing state signals
completion (the onended handler fires while isPlaying is true), the engine
performs exactly the pause teardown (store elapsed as pausedTime, stop the
source, detach onended, clear the node, stop playing, cancel the visualizer
frame and reset the bar heights) and additionally resets currentTime and
pausedTime to 0; consequently a subsequent play creates a source started at
offset 0 with trackStartTime equal to the current clock, so playback restarts
from the beginning. -/
theorem C7_natural_end (ops : List EngineOp) (i : Nat) (now now2 : ℚ)
    (hplay : (runOps true ops).isPlaying = true)
    (hcur : (runOps true ops).current = some i)
    (htrack : (runOps true ops).hasTrack = true) :
    onEnded true now i (runOps true ops)
      = { pauseCurrentTrack true now (runOps true ops) with currentTime := 0, pausedTime := 0 }
  ∧ (onEnded true now i (runOps true ops)).pausedTime = 0
  ∧ (onEnded true now i (runOps true ops)).currentTime = 0
  ∧ (onEnded true now i (runOps true ops)).isPlaying = false
  ∧ (onEnded true now i (runOps true ops)).animationRunning = false
  ∧ (onEnded true now i (runOps true ops)).barHeights = List.replicate 50 2
  ∧ (playCurrentTrack true now2 (onEnded true now i (runOps true ops))).sources[
       (onEnded true now i (runOps true ops)).sources.length]?
       = some ⟨0, false, true⟩
  ∧ (playCurrentTrack true now2 (onEnded true now i (runOps true ops))).trackStartTime = now2 := by
  obtain ⟨h1, h2, h3, h4⟩ := engineInv_runOps true ops
  obtain ⟨s, hgs, hlive, hatt⟩ := h2 i hcur
  have heq : onEnded true now i (runOps true ops)
      = { pauseCurrentTrack true now (runOps true ops) with currentTime := 0, pausedTime := 0 } := by
    unfold onEnded
    simp only [hgs, hatt, if_true, hplay]
  have hpause : pauseCurrentTrack true now (runOps true ops)
      = { runOps true ops with
          pausedTime := now - (runOps true ops).trackStartTime,
          sources := markStopped (runOps true ops).sources i,
          current := none,
          isPlaying := false,
          animationRunning := false,
          barHeights := List.replicate 50 2 } := by
    unfold pauseCurrentTrack
    simp only [hcur, if_true]
  have htr2 : (onEnded true now i (runOps true ops)).hasTrack = true := by
    rw [heq, hpause]
    exact htrack
  have hpt : (onEnded true now i (runOps true ops)).pausedTime = 0 := by rw [heq]
  have hplay2 : playCurrentTrack true now2 (onEnded true now i (runOps true ops))
      = { onEnded true now i (runOps true ops) with
          sources := (onEnded true now i (runOps true ops)).sources
            ++ [⟨(onEnded true now i (runOps true ops)).pausedTime, false, true⟩],
          current := some (onEnded true now i (runOps true ops)).sources.length,
          trackStartTime := now2 - (onEnded true now i (runOps true ops)).pausedTime,
          isPlaying := true,
          animationRunning := true } := by
    unfold playCurrentTrack
    rw [if_neg (by simp [htr2])]
  refine ⟨heq, hpt, by rw [heq], by rw [heq, hpause], by rw [heq, hpause], by rw [heq, hpause],
    ?_, ?_⟩
  · rw [hplay2, hpt]
    exact List.getElem?_concat_length _ _
  · rw [hplay2, hpt]
    simp

/-- Witness for C7: a state reached by loading a track and pressing play, in
which the single source then ends naturally. -/
theorem C7_natural_end_witness :
    onEnded true 3 0 (runOps true [EngineOp.update true 0, EngineOp.toggle 0])
      = { pauseCurrentTrack true 3 (runOps true [EngineOp.update true 0, EngineOp.toggle 0]) with
          currentTime := 0, pausedTime := 0 }
  ∧ (playCurrentTrack true 4
        (onEnded true 3 0 (runOps true [EngineOp.update true 0, EngineOp.toggle 0]))).trackStartTime
      = 4 :=
  ⟨(C7_natural_end [EngineOp.update true 0, EngineOp.toggle 0] 0 3 4
      (by decide) (by decide) (by decide)).1,
   (C7_natural_end [EngineOp.update true 0, EngineOp.toggle 0] 0 3 4
      (by decide) (by decide) (by decide)).2.2.2.2.2.2.2⟩
